import Mathlib

/-!
Shallow embedding of the core of `src/streamlit_app.py`: the data loaders
(`load_co2`, `load_o2`, `load_ch4`, `load_n2o`, `load_energy` with its inner
`fetch_country`) and the dashboard's range-filter-and-smooth step
(`mask` / `sel = gas_data[mask].copy()` / `groupby("group").rolling(smooth, 1).mean()`).

Dates are encoded as natural numbers `y*10000 + m*100 + d`, so that the
numeric order coincides with calendar order; values are rationals (pandas
floats); a pandas NaN value is `Option.none`.  The network call
`requests.get(...)` and its parse are represented by an `Option` argument:
`some rows` is a response that parsed at the tabular level, `none` is any
fetch or parse failure (the bare `except:` branch).  The unseeded
`np.random.normal` noise of the fallback series is an explicit function
argument `noise`.
-/

/-- Record of the loaders' output frames: columns `date`, `value`, `group`.
The `value` column may be NaN (`none`), since `load_co2` applies no `dropna`. -/
structure ORecord where
  date : Nat
  value : Option ℚ
  group : String
deriving DecidableEq, Repr

/-- Record of a combined table as consumed by the dashboard's filter-and-smooth
step, with a present (non-NaN) value. -/
structure Record where
  date : Nat
  value : ℚ
  group : String
deriving DecidableEq, Repr

instance : Inhabited Record := ⟨⟨0, 0, ""⟩⟩

/-- Encoding of the calendar date `y-m-d` as `y*10000 + m*100 + d`. -/
def mkDate (y m d : Nat) : Nat := y * 10000 + m * 100 + d

/-! ### The smoothing step

`sel["value"] = sel.groupby("group")["value"].transform(lambda s: s.rolling(smooth,1).mean())`
groups the rows by `group`, and within each group replaces each value by the
mean of the trailing window of width at most `smooth` (at least one row, by
`min_periods=1`) taken over that group's rows in their row order; results are
realigned to the original row positions.  `smoothGo` processes the rows in
order; `done` is the list of rows already processed. -/
def smoothGo (w : Nat) (done : List Record) : List Record → List Record
  | [] => []
  | r :: rest =>
    let pre := ((done ++ [r]).filter fun x => x.group == r.group).map (·.value)
    let win := pre.drop (pre.length - w)
    { r with value := win.sum / (win.length : ℚ) } :: smoothGo w (done ++ [r]) rest

/-- Per-group trailing rolling mean over the whole table, realigned to row
positions, as performed by the `groupby`/`rolling`/`transform` line. -/
def smoothTable (w : Nat) (t : List Record) : List Record := smoothGo w [] t

/-- Row filter `(gas_data["date"].dt.date >= start) & (gas_data["date"].dt.date <= end)`
followed by row selection `gas_data[mask]`. -/
def filterRange (gas : List Record) (s e : Nat) : List Record :=
  gas.filter fun r => decide (s ≤ r.date) && decide (r.date ≤ e)

/-- The dashboard's filter-and-smooth pipeline: select the date range, then
smooth only when `smooth > 0` (the `if smooth > 0:` guard). -/
def applySel (gas : List Record) (s e w : Nat) : List Record :=
  let sel := filterRange gas s e
  if w > 0 then smoothTable w sel else sel

/-- One render step with explicit state threading: `sel = gas_data[mask].copy()`
makes `sel` an independent copy, so the later in-place assignment to
`sel["value"]` leaves `gas_data` untouched.  The result pairs the gas table
after the step with the derived view. -/
def renderStep (gas : List Record) (s e w : Nat) : List Record × List Record :=
  let sel := filterRange gas s e
  let sel2 := if w > 0 then smoothTable w sel else sel
  (gas, sel2)

/-! ### The data loaders

Each `load_*` function wraps its body in `try: ... except:`; the `except`
branch returns a synthetic series and the label `"예시 데이터"`.  A parsed
response is `some rows`; `pd.to_datetime(df[["year","month"]].assign(DAY=15))`
raises on an out-of-range month, which lands in the same `except` branch, so
the success path additionally requires every row's month to be valid. -/

/-- Raw row of a NOAA monthly text table after `pd.read_csv`, restricted to
the columns the loader keeps: `year`, `month` and the value column `trend`
(possibly NaN).  Used by `load_co2`, `load_ch4` and `load_n2o`. -/
structure GasRow where
  year : Nat
  month : Nat
  trend : Option ℚ
deriving DecidableEq, Repr

/-- Raw row of the NOAA oxygen table: value column `o2_conc`. -/
structure O2Row where
  year : Nat
  month : Nat
  o2_conc : Option ℚ
deriving DecidableEq, Repr

/-- Month values `pd.to_datetime` accepts; an invalid month raises and takes
the `except` branch. -/
def validYM (y m : Nat) : Bool := decide (1 ≤ m) && decide (m ≤ 12) && decide (1 ≤ y)

/-- Row filter `(df["date"].dt.date <= TODAY_LOCAL) & (df["date"].dt.year >= 2000)`. -/
def gasKeep (today : Nat) (r : ORecord) : Bool :=
  decide (r.date ≤ today) && decide (2000 ≤ r.date / 10000)

/-- Values of `np.linspace a b n`: `n` evenly spaced points from `a` to `b`. -/
def linspace (a b : ℚ) (n : Nat) : List ℚ :=
  if n ≤ 1 then List.replicate n a
  else (List.range n).map fun i => a + (b - a) * i / (n - 1)

/-- Last day of month `m` of year `y` (Gregorian). -/
def monthEndDay (y m : Nat) : Nat :=
  if m = 2 then (if y % 4 = 0 ∧ (y % 100 ≠ 0 ∨ y % 400 = 0) then 29 else 28)
  else if m = 4 ∨ m = 6 ∨ m = 9 ∨ m = 11 then 30 else 31

/-- Dates of `pd.date_range("2000-01-01", "2025-01-01", freq="M")`: the 300
month-end dates 2000-01-31, 2000-02-29, ..., 2024-12-31. -/
def monthEnds : List Nat :=
  (List.range 300).map fun i =>
    mkDate (2000 + i / 12) (i % 12 + 1) (monthEndDay (2000 + i / 12) (i % 12 + 1))

/-- Synthetic gas fallback series: monthly dates, values linearly spaced from
`a` to `b` plus the pseudo-random noise draw. -/
def gasFallback (a b : ℚ) (label : String) (noise : Nat → ℚ) : List ORecord :=
  (List.range 300).map fun i =>
    ⟨monthEnds.getD i 0, some ((linspace a b 300).getD i 0 + noise i), label⟩

def co2Url : String := "https://gml.noaa.gov/webdata/ccgg/trends/co2/co2_mm_mlo.csv"
def o2Url : String := "https://gml.noaa.gov/webdata/ccgg/trends/o2/o2_alt_surface-flask_allvalid.txt"
def ch4Url : String := "https://gml.noaa.gov/webdata/ccgg/trends/ch4/ch4_mm_gl.txt"
def n2oUrl : String := "https://gml.noaa.gov/webdata/ccgg/trends/n2o/n2o_mm_gl.txt"

/-- Label of the fallback path, `"예시 데이터"` (Korean for "example data"). -/
def exampleLabel : String := "예시 데이터"

/-- Row of the CO₂ frame after column selection, rename and group assignment. -/
def co2Rec (r : GasRow) : ORecord := ⟨mkDate r.year r.month 15, r.trend, "CO₂ (ppm)"⟩

/-- Embedding of `load_co2`.  `net` is the outcome of the fetch-and-parse:
`some rows` on success, `none` on any exception. -/
def load_co2 (noise : Nat → ℚ) (net : Option (List GasRow)) (today : Nat) :
    List ORecord × String :=
  match net with
  | some rows =>
    if rows.all (fun r => validYM r.year r.month) then
      ((rows.map co2Rec).filter (gasKeep today), co2Url)
    else (gasFallback 370 420 "CO₂ (ppm)" noise, exampleLabel)
  | none => (gasFallback 370 420 "CO₂ (ppm)" noise, exampleLabel)

/-- Row of the O₂ frame after column selection, rename and group assignment. -/
def o2Rec (r : O2Row) : ORecord := ⟨mkDate r.year r.month 15, r.o2_conc, "O₂ 변화 (per meg)"⟩

/-- Synthetic O₂ fallback: `-np.linspace(0, 300, n) + noise`. -/
def o2Fallback (noise : Nat → ℚ) : List ORecord :=
  (List.range 300).map fun i =>
    ⟨monthEnds.getD i 0, some (-((linspace 0 300 300).getD i 0) + noise i), "O₂ 변화 (per meg)"⟩

/-- Embedding of `load_o2`. -/
def load_o2 (noise : Nat → ℚ) (net : Option (List O2Row)) (today : Nat) :
    List ORecord × String :=
  match net with
  | some rows =>
    if rows.all (fun r => validYM r.year r.month) then
      ((rows.map o2Rec).filter (gasKeep today), o2Url)
    else (o2Fallback noise, exampleLabel)
  | none => (o2Fallback noise, exampleLabel)

/-- Row of the CH₄ frame after column selection, rename and group assignment. -/
def ch4Rec (r : GasRow) : ORecord := ⟨mkDate r.year r.month 15, r.trend, "CH₄ (ppb)"⟩

/-- Embedding of `load_ch4`. -/
def load_ch4 (noise : Nat → ℚ) (net : Option (List GasRow)) (today : Nat) :
    List ORecord × String :=
  match net with
  | some rows =>
    if rows.all (fun r => validYM r.year r.month) then
      ((rows.map ch4Rec).filter (gasKeep today), ch4Url)
    else (gasFallback 1750 1950 "CH₄ (ppb)" noise, exampleLabel)
  | none => (gasFallback 1750 1950 "CH₄ (ppb)" noise, exampleLabel)

/-- Row of the N₂O frame after column selection, rename and group assignment. -/
def n2oRec (r : GasRow) : ORecord := ⟨mkDate r.year r.month 15, r.trend, "N₂O (ppb)"⟩

/-- Embedding of `load_n2o`. -/
def load_n2o (noise : Nat → ℚ) (net : Option (List GasRow)) (today : Nat) :
    List ORecord × String :=
  match net with
  | some rows =>
    if rows.all (fun r => validYM r.year r.month) then
      ((rows.map n2oRec).filter (gasKeep today), n2oUrl)
    else (gasFallback 315 335 "N₂O (ppb)" noise, exampleLabel)
  | none => (gasFallback 315 335 "N₂O (ppb)" noise, exampleLabel)

/-! ### The energy loader -/

/-- Raw row of the World Bank JSON payload after selecting `["date","value"]`:
`date` holds the year (the API sends it as a year string), `value` may be null. -/
structure EnergyRow where
  date : Nat
  value : Option ℚ
deriving DecidableEq, Repr

/-- Resource address template used by `load_energy` (and returned as its
provenance string). -/
def energyBase : String :=
  "https://api.worldbank.org/v2/country/\x7bcode\x7d/indicator/EG.USE.PCAP.KG.OE?format=json"

/-- Synthetic energy fallback for one country:
`pd.date_range("2000", "2025", freq="Y")` gives the 25 year-end dates
2000-12-31, ..., 2024-12-31; values `np.linspace(2000, 2100, 25) + noise`. -/
def energyFallback (noise : Nat → ℚ) (name : String) : List ORecord :=
  (List.range 25).map fun i =>
    ⟨mkDate (2000 + i) 12 31, some ((linspace 2000 2100 25).getD i 0 + noise i), name⟩

/-- Embedding of the inner `fetch_country`: on success, drop rows with a null
value (`dropna`), parse the year string to the date (January 1st) and attach
the country name; on any exception, return the synthetic series. -/
def fetch_country (noise : Nat → ℚ) (net : Option (List EnergyRow)) (name : String) :
    List ORecord :=
  match net with
  | some rows =>
    (rows.filter fun r => r.value.isSome).map fun r => ⟨mkDate r.date 1 1, r.value, name⟩
  | none => energyFallback noise name

def worldLabel : String := "세계 1인당 에너지 사용량"
def koreaLabel : String := "한국 1인당 에너지 사용량"

/-- Embedding of `load_energy`: fetch the two countries, concatenate, keep
years from 2000 on, and return `base` as the provenance string — on the
success and the fallback path alike. -/
def load_energy (noiseW noiseK : Nat → ℚ) (netW netK : Option (List EnergyRow)) :
    List ORecord × String :=
  let world := fetch_country noiseW netW worldLabel
  let korea := fetch_country noiseK netK koreaLabel
  ((world ++ korea).filter fun r => decide (2000 ≤ r.date / 10000), energyBase)

/-! ### Helper lemmas about the smoothing step -/

/-- Processing with `smoothGo` emits exactly one row per input row. -/
theorem smoothGo_length (w : Nat) (rest : List Record) :
    ∀ done, (smoothGo w done rest).length = rest.length := by
  induction rest with
  | nil => intro done; rfl
  | cons r rest ih => intro done; simp [smoothGo, ih]

/-- Element of a list at an in-range position with a default is a member. -/
theorem getD_mem_of_lt {l : List Record} {i : Nat} (h : i < l.length) :
    l.getD i default ∈ l := by
  induction l generalizing i with
  | nil => simp at h
  | cons a l ih =>
    match i with
    | 0 => simp
    | i + 1 =>
      have hm := ih (i := i) (by simpa using h)
      simp only [List.getD_cons_succ]
      exact List.mem_cons_of_mem a hm

/-- Pointwise description of `smoothGo`: row `i` of the output is row `i` of
the input with its value replaced by the mean of the trailing window of width
at most `w` over the same-group rows of `done` and the input up to `i`. -/
theorem smoothGo_getD (w : Nat) (rest : List Record) :
    ∀ (done : List Record) (i : Nat), i < rest.length →
    (smoothGo w done rest).getD i default =
      (let r := rest.getD i default
       let pre := ((done ++ rest.take (i + 1)).filter fun x => x.group == r.group).map (·.value)
       let win := pre.drop (pre.length - w)
       { r with value := win.sum / (win.length : ℚ) }) := by
  induction rest with
  | nil => intro done i h; simp at h
  | cons r rest ih =>
    intro done i h
    match i with
    | 0 => simp [smoothGo]
    | i + 1 =>
      have h' : i < rest.length := by simpa using h
      simp only [smoothGo, List.getD_cons_succ]
      rw [ih (done ++ [r]) i h']
      have hl : (done ++ [r]) ++ rest.take (i + 1) = done ++ (r :: rest).take (i + 1 + 1) := by
        simp
      simp only [hl]

/-- Pointwise description of `smoothTable`. -/
theorem smoothTable_getD (w : Nat) (t : List Record) (i : Nat) (h : i < t.length) :
    (smoothTable w t).getD i default =
      (let r := t.getD i default
       let pre := ((t.take (i + 1)).filter fun x => x.group == r.group).map (·.value)
       let win := pre.drop (pre.length - w)
       { r with value := win.sum / (win.length : ℚ) }) := by
  have hg := smoothGo_getD w t [] i h
  simpa [smoothTable] using hg

/-- Filtering the output of `smoothGo` to one group commutes with filtering
its inputs to that group: rows of other groups never enter a window. -/
theorem smoothGo_filter (w : Nat) (A : String) (rest : List Record) :
    ∀ done, (smoothGo w done rest).filter (fun r => r.group == A)
      = smoothGo w (done.filter fun r => r.group == A)
          (rest.filter fun r => r.group == A) := by
  induction rest with
  | nil => intro done; rfl
  | cons r rest ih =>
    intro done
    by_cases hA : (r.group == A) = true
    · have hg : r.group = A := eq_of_beq hA
      have hsame : (done.filter (fun x => x.group == A)).filter (fun x => x.group == A)
          = done.filter (fun x => x.group == A) :=
        List.filter_eq_self.mpr fun a ha => (List.mem_filter.mp ha).2
      simp only [List.filter_cons, hA, if_true]
      simp only [smoothGo]
      rw [hg]
      simp only [List.filter_cons, beq_self_eq_true, if_true]
      rw [ih (done ++ [r])]
      simp only [List.filter_append, List.filter_cons, beq_self_eq_true, if_true,
        List.filter_nil, hsame]
      simp [hA]
    · have hb : (r.group == A) = false := by simpa using hA
      simp only [List.filter_cons, hb, if_false, Bool.false_eq_true]
      simp only [smoothGo]
      simp only [List.filter_cons, hb, if_false, Bool.false_eq_true]
      rw [ih (done ++ [r])]
      simp only [List.filter_append, List.filter_cons, hb, if_false, Bool.false_eq_true,
        List.filter_nil, List.append_nil]

/-! ### Claims about the filter-and-smooth step -/

/-- Concrete table of the spec's scenario: (2000-01-15, 10, "X") and
(2000-02-15, 20, "X"). -/
def exTable : List Record := [⟨mkDate 2000 1 15, 10, "X"⟩, ⟨mkDate 2000 2 15, 20, "X"⟩]

/-- Interleaved two-group table: group "A" on odd days, group "B" on even days. -/
def mixTable : List Record :=
  [⟨mkDate 2000 1 1, 1, "A"⟩, ⟨mkDate 2000 1 2, 10, "B"⟩,
   ⟨mkDate 2000 1 3, 3, "A"⟩, ⟨mkDate 2000 1 4, 30, "B"⟩]

/-- C1: on a one-group partition sorted ascending by date, the `i`-th smoothed
value is the arithmetic mean of record `i` and the up to `w - 1` immediately
preceding records; in particular the table [(2000-01-15, 10, "X"),
(2000-02-15, 20, "X")] smoothed with window 2 yields the values [10, 15]. -/
theorem C1_trailing_window_mean (t : List Record) (g : String) (w i : Nat)
    (hw : 0 < w) (hg : ∀ r ∈ t, r.group = g)
    (hs : t.Pairwise fun a b => a.date ≤ b.date) (hi : i < t.length) :
    (((smoothTable w t).getD i default).value =
      (let win := ((t.take (i + 1)).map (·.value)).drop (i + 1 - w)
       win.sum / (win.length : ℚ)))
    ∧ (smoothTable 2 exTable).map (·.value) = [10, 15] := by
  constructor
  · rw [smoothTable_getD w t i hi]
    have hfix : (t.take (i + 1)).filter (fun x => x.group == (t.getD i default).group)
        = t.take (i + 1) := by
      apply List.filter_eq_self.mpr
      intro a ha
      have h1 : a.group = g := hg a (List.take_subset _ _ ha)
      have h2 : (t.getD i default).group = g := hg _ (getD_mem_of_lt hi)
      rw [h1, h2]
      exact beq_self_eq_true g
    have hlen : ((t.take (i + 1)).map (·.value)).length = i + 1 := by
      simp [List.length_take]
      omega
    simp only [hfix, hlen]
  · simp [smoothTable, smoothGo, exTable, mkDate]
    norm_num

/-- Witness for C1 at the spec's concrete table with window 2, position 1. -/
theorem C1_witness :
    ((smoothTable 2 exTable).getD 1 default).value =
      (let win := ((exTable.take (1 + 1)).map (·.value)).drop (1 + 1 - 2)
       win.sum / (win.length : ℚ)) :=
  (C1_trailing_window_mean exTable "X" 2 1 (by decide) (by decide) (by decide) (by decide)).1

/-- C4: restricting the smoothed table to one group gives the same rows as
smoothing that group's records alone — windows never span two groups. -/
theorem C4_no_group_mixing (t : List Record) (w : Nat) (A : String) (hw : 0 < w) :
    (smoothTable w t).filter (fun r => r.group == A)
      = smoothTable w (t.filter fun r => r.group == A) := by
  have hc := smoothGo_filter w A t []
  simpa [smoothTable] using hc

/-- Witness for C4 at an interleaved two-group table with window 2. -/
theorem C4_witness :
    (smoothTable 2 mixTable).filter (fun r => r.group == "A")
      = smoothTable 2 (mixTable.filter fun r => r.group == "A") :=
  C4_no_group_mixing mixTable 2 "A" (by decide)

/-- C5: with window 0 the pipeline returns exactly the date-filtered records,
values unchanged — the `if smooth > 0:` guard skips smoothing. -/
theorem C5_window_zero_noop (gas : List Record) (s e : Nat) :
    applySel gas s e 0 = filterRange gas s e := by
  simp [applySel]

/-- C8: smoothing emits exactly one output record per input record. -/
theorem C8_length_preserved (t : List Record) (w : Nat) (hw : 0 < w) :
    (smoothTable w t).length = t.length :=
  smoothGo_length w t []

/-- Witness for C8 at the interleaved table with window 3. -/
theorem C8_witness : (smoothTable 3 mixTable).length = mixTable.length :=
  C8_length_preserved mixTable 3 (by decide)

/-- C9: an inverted range (end before start) or a range disjoint from every
record's date yields an empty result; the pipeline completes on every input. -/
theorem C9_out_of_range_empty (gas : List Record) (s e w : Nat)
    (h : e < s ∨ ∀ r ∈ gas, r.date < s ∨ e < r.date) :
    applySel gas s e w = [] := by
  have hf : filterRange gas s e = [] := by
    apply List.filter_eq_nil_iff.mpr
    intro a ha
    rcases h with h | h
    · simp only [Bool.and_eq_true, decide_eq_true_eq, not_and]
      omega
    · rcases h a ha with h' | h' <;>
        (simp only [Bool.and_eq_true, decide_eq_true_eq, not_and]; omega)
  simp [applySel, hf, smoothTable, smoothGo]

/-- Witness for C9: a 2100 range against a 2005 record gives the empty table. -/
theorem C9_witness :
    applySel [⟨mkDate 2005 6 15, 10, "X"⟩] (mkDate 2100 1 1) (mkDate 2100 1 1) 6 = [] :=
  C9_out_of_range_empty _ _ _ 6 (Or.inr (by decide))

/-- C10: the render step leaves the input table unchanged (the `.copy()`
detaches the view) and its derived view is the filter-and-smooth result. -/
theorem C10_no_mutation (gas : List Record) (s e w : Nat) :
    (renderStep gas s e w).1 = gas ∧ (renderStep gas s e w).2 = applySel gas s e w :=
  ⟨rfl, rfl⟩

/-! ### Claims about the loaders -/

/-- C2 fails as stated: on failure of both country fetches, `load_energy`
still returns the resource address template, not the sentinel label. -/
theorem C2_counterexample :
    (load_energy (fun _ => 0) (fun _ => 0) none none).2 = energyBase
      ∧ energyBase ≠ exampleLabel := by
  exact ⟨rfl, by decide⟩

/-- C2 amended: the four gas loaders return the sentinel label `"예시 데이터"`
on the fallback path and the literal URL on the success path, while
`load_energy` returns the resource address template on every path. -/
theorem C2_amended_provenance (noise : Nat → ℚ) (today : Nat) :
    ((load_co2 noise none today).2 = exampleLabel
      ∧ (load_o2 noise none today).2 = exampleLabel
      ∧ (load_ch4 noise none today).2 = exampleLabel
      ∧ (load_n2o noise none today).2 = exampleLabel)
    ∧ (∀ rows, rows.all (fun r => validYM r.year r.month) = true →
        (load_co2 noise (some rows) today).2 = co2Url)
    ∧ (∀ noiseK netW netK, (load_energy noise noiseK netW netK).2 = energyBase) := by
  refine ⟨⟨rfl, rfl, rfl, rfl⟩, ?_, fun _ _ _ => rfl⟩
  intro rows hv
  simp [load_co2, hv]

/-- Witness for C2's amended statement at a one-row parsed response. -/
theorem C2_witness :
    (load_co2 (fun _ => 0) (some [⟨2005, 3, some 380⟩]) 20991231).2 = co2Url :=
  (C2_amended_provenance (fun _ => 0) 20991231).2.1 [⟨2005, 3, some 380⟩] (by decide)

/-- C3 fails as stated: the energy success path applies no upper date bound,
so a World Bank row dated 2099 stays in the normalized output even though
2099-01-01 is after today. -/
theorem C3_counterexample :
    ∃ r ∈ (load_energy (fun _ => 0) (fun _ => 0)
      (some [⟨2099, some 5⟩]) (some [])).1, 20261012 < r.date := by
  decide

/-- C3 amended: the gas success paths do keep every date within
[2000-01-01, today]; the energy series is only bounded below (year 2000). -/
theorem C3_amended_bounds :
    (∀ (noise : Nat → ℚ) (rows : List GasRow) (today : Nat),
      rows.all (fun r => validYM r.year r.month) = true →
      ∀ r ∈ (load_co2 noise (some rows) today).1,
        mkDate 2000 1 1 ≤ r.date ∧ r.date ≤ today)
    ∧ (∀ (noiseW noiseK : Nat → ℚ) (netW netK : Option (List EnergyRow)),
        ∀ r ∈ (load_energy noiseW noiseK netW netK).1, 2000 ≤ r.date / 10000) := by
  constructor
  · intro noise rows today hv r hr
    simp only [load_co2, hv, if_true] at hr
    have hk := (List.mem_filter.mp hr).2
    have hm := (List.mem_filter.mp hr).1
    simp only [gasKeep, Bool.and_eq_true, decide_eq_true_eq] at hk
    rcases List.mem_map.mp hm with ⟨row, hrow, hrec⟩
    have hvrow : validYM row.year row.month = true :=
      List.all_eq_true.mp hv row hrow
    simp only [validYM, Bool.and_eq_true, decide_eq_true_eq] at hvrow
    have hdate : r.date = row.year * 10000 + row.month * 100 + 15 := by
      rw [← hrec]; rfl
    refine ⟨?_, hk.1⟩
    have h2000 := hk.2
    rw [hdate] at h2000 ⊢
    simp only [mkDate]
    omega
  · intro noiseW noiseK netW netK r hr
    have hk := (List.mem_filter.mp hr).2
    simpa using hk

/-- Witness for C3's amended statement at a one-row parsed CO₂ response. -/
theorem C3_witness :
    mkDate 2000 1 1 ≤ (ORecord.mk (mkDate 2005 3 15) (some 380) "CO₂ (ppm)").date
      ∧ (ORecord.mk (mkDate 2005 3 15) (some 380) "CO₂ (ppm)").date ≤ 20991231 :=
  C3_amended_bounds.1 (fun _ => 0) [⟨2005, 3, some 380⟩] 20991231 (by decide)
    ⟨mkDate 2005 3 15, some 380, "CO₂ (ppm)"⟩ (by decide)

/-- C6 fails as stated: `load_co2` applies no sort, so a parsed payload whose
rows are out of chronological order is returned in that same order. -/
theorem C6_counterexample :
    ¬ ((load_co2 (fun _ => 0)
      (some [⟨2000, 2, some 1⟩, ⟨2000, 1, some 2⟩]) 20991231).1.Pairwise
        fun a b => a.date ≤ b.date) := by
  decide

/-- C6 amended: the normalizer preserves the input row order (its output is
the order-preserving filter of the mapped rows), so the output is ascending
by date exactly when the parsed rows already are. -/
theorem C6_amended_order (noise : Nat → ℚ) (rows : List GasRow) (today : Nat)
    (hv : rows.all (fun r => validYM r.year r.month) = true)
    (hs : (rows.map co2Rec).Pairwise fun a b => a.date ≤ b.date) :
    (load_co2 noise (some rows) today).1 = (rows.map co2Rec).filter (gasKeep today)
    ∧ ((load_co2 noise (some rows) today).1.Pairwise fun a b => a.date ≤ b.date) := by
  have he : (load_co2 noise (some rows) today).1
      = (rows.map co2Rec).filter (gasKeep today) := by
    simp [load_co2, hv]
  exact ⟨he, he ▸ hs.filter (gasKeep today)⟩

/-- Witness for C6's amended statement at a two-row chronological response. -/
theorem C6_witness :
    (load_co2 (fun _ => 0) (some [⟨2005, 3, some 380⟩, ⟨2005, 4, some 381⟩]) 20991231).1
      = ([⟨2005, 3, some 380⟩, ⟨2005, 4, some 381⟩].map co2Rec).filter (gasKeep 20991231)
    ∧ ((load_co2 (fun _ => 0)
        (some [⟨2005, 3, some 380⟩, ⟨2005, 4, some 381⟩]) 20991231).1.Pairwise
          fun a b => a.date ≤ b.date) :=
  C6_amended_order (fun _ => 0) [⟨2005, 3, some 380⟩, ⟨2005, 4, some 381⟩] 20991231
    (by decide) (by decide)

/-- C7 fails as stated: `load_co2` has no `dropna`-equivalent step, so a row
with a NaN `trend` value passes through to the normalized output. -/
theorem C7_counterexample :
    ∃ r ∈ (load_co2 (fun _ => 0) (some [⟨2000, 1, none⟩]) 20991231).1,
      r.value = none := by
  decide

/-- C7 amended: only the energy `fetch_country` drops missing values; its
output never contains a null value, on the success and the fallback path. -/
theorem C7_amended_dropna (noise : Nat → ℚ) (net : Option (List EnergyRow)) (name : String) :
    ∀ r ∈ fetch_country noise net name, r.value.isSome = true := by
  intro r hr
  match net with
  | some rows =>
    simp only [fetch_country] at hr
    rcases List.mem_map.mp hr with ⟨row, hrow, hrec⟩
    have hv := (List.mem_filter.mp hrow).2
    rw [← hrec]
    exact hv
  | none =>
    simp only [fetch_country, energyFallback] at hr
    rcases List.mem_map.mp hr with ⟨i, _, hrec⟩
    rw [← hrec]
    rfl

/-- Witness for C7's amended statement at a one-row parsed response. -/
theorem C7_witness :
    (ORecord.mk (mkDate 2005 1 1) (some 3) "x").value.isSome = true :=
  C7_amended_dropna (fun _ => 0) (some [⟨2005, some 3⟩]) "x"
    ⟨mkDate 2005 1 1, some 3, "x"⟩ (by decide)
